import Mathlib

/-!
# Verification of the task-bridge introspection and adaptation layer

Shallow embedding of the core logic of `mcp-task-bridge`:
the task-summary detail parser (`GetTaskDetails`), the task-list parser
(`DiscoverTasks`), the catalog builder (`Inspect`), the tool translator
(`TranslateTtmcpTools`), the MCP tool handler (`createTaskHandler`) and the
agent-side executor (`taskExecutorTool.Call`).

Strings are modelled as `List Char`.  The Go standard-library string
operations used by the code (`strings.Split`, `strings.Fields`,
`strings.TrimSpace`, `strings.TrimPrefix`, `strings.HasPrefix`,
`strings.Contains`) are reproduced below with Go semantics; whitespace is
modelled over the ASCII range of `unicode.IsSpace`
(space, tab, newline, vertical tab, form feed, carriage return).

External subprocess invocation is the one real-world effect; it is modelled
by passing the raw captured output (or an abstract run function returning
captured streams and an optional error) as an explicit argument, so every
definition here is the pure remainder of the corresponding Go function.
-/

abbrev Str := List Char

/-- ASCII fragment of Go `unicode.IsSpace`, used by `strings.TrimSpace`
and `strings.Fields`. -/
def goIsSpace (c : Char) : Bool :=
  c == ' ' || c == '\t' || c == '\n' || c == Char.ofNat 11 || c == Char.ofNat 12 || c == '\r'

/-- Go `strings.HasPrefix pre s`. -/
def goHasPre (pre s : Str) : Bool :=
  List.isPrefixOf pre s

/-- Go `strings.TrimPrefix`: drop `pre` when it is a prefix, else unchanged. -/
def goTrimPre (pre s : Str) : Str :=
  if goHasPre pre s then s.drop pre.length else s

/-- Go `strings.Split s (string sep)` for a one-character separator:
splits around every occurrence of `sep`, keeping empty fields;
the result list is never empty. -/
def splitOnChar (sep : Char) : Str → List Str
  | [] => [[]]
  | c :: cs =>
    let r := splitOnChar sep cs
    if c == sep then [] :: r
    else
      match r with
      | [] => [[c]]
      | t :: ts => (c :: t) :: ts

/-- Splitting around every character satisfying `p`, keeping empty fields. -/
def splitOnP (p : Char → Bool) : Str → List Str
  | [] => [[]]
  | c :: cs =>
    let r := splitOnP p cs
    if p c then [] :: r
    else
      match r with
      | [] => [[c]]
      | t :: ts => (c :: t) :: ts

/-- Go `strings.Fields`: the maximal runs of non-whitespace characters. -/
def goFields (s : Str) : List Str :=
  (splitOnP goIsSpace s).filter (fun t => !t.isEmpty)

/-- Trailing-whitespace trim. -/
def goTrimRightSp (s : Str) : Str :=
  (s.reverse.dropWhile goIsSpace).reverse

/-- Go `strings.TrimSpace`. -/
def goTrimSpace (s : Str) : Str :=
  (goTrimRightSp s).dropWhile goIsSpace

/-- Go `strings.Contains s (string c)` for a one-character needle. -/
def goContains (c : Char) (s : Str) : Bool :=
  s.contains c

/-- Errors returned by `cmd.Run` and propagated by the Go code; modelled by
their rendered message (Go `error.Error()` / `%v`). -/
abbrev GoErr := Str

namespace inspector

/-- `inspector.TaskParameter`. -/
structure TaskParameter where
  name : Str
  description : Str := []
  isRequired : Bool := false
deriving DecidableEq, Repr

/-- `inspector.TaskDefinition`. -/
structure TaskDefinition where
  name : Str
  description : Str := []
  usage : Str := []
  parameters : List TaskParameter := []
deriving DecidableEq, Repr

/-- `inspector.MCPConfig`. -/
structure MCPConfig where
  tasks : List TaskDefinition := []
deriving DecidableEq, Repr

/-- The `parsingState` string variable of `GetTaskDetails`:
`""`, `"usage"` or `"required"`. -/
inductive PState where
  | descSt
  | usageSt
  | requiredSt
deriving DecidableEq, Repr

/-- The mutable state of the line loop of `GetTaskDetails`. -/
structure DetailAcc where
  description : Str
  usage : Str
  state : PState
deriving DecidableEq, Repr

def taskHeaderPre : Str := "task: ".data

def usageMarker : Str := "Usage:".data

def requiredMarker : Str := "Required:".data

/-- One iteration of the line loop of `GetTaskDetails`. -/
def detailStep (acc : DetailAcc) (line : Str) : DetailAcc :=
  if goHasPre taskHeaderPre line then acc
  else if goHasPre usageMarker line then
    { acc with state := PState.usageSt
               usage := goTrimSpace (goTrimPre usageMarker line) }
  else if goHasPre requiredMarker line then
    { acc with state := PState.requiredSt }
  else if acc.state = PState.descSt then
    { acc with description := acc.description ++ line ++ ['\n'] }
  else acc

/-- The parameter-extraction loop at the end of `GetTaskDetails`: when the
usage string contains `=`, split it on the space character and collect one
parameter per part containing `=`, named by `strings.Split(part, "=")[0]`. -/
def parseUsageParams (usage : Str) : List TaskParameter :=
  if goContains '=' usage then
    (splitOnChar ' ' usage).foldl
      (fun ps part =>
        if goContains '=' part then
          ps ++ [{ name := (splitOnChar '=' part).headD [] }]
        else ps)
      []
  else []

/-- Pure core of `GetTaskDetails`: parse the captured stdout of
`task <name> --summary --taskfile <path>`. -/
def getTaskDetailsFromOutput (taskName : Str) (stdout : Str) : TaskDefinition :=
  let lines := splitOnChar '\n' stdout
  let acc := lines.foldl detailStep { description := [], usage := [], state := PState.descSt }
  { name := taskName
    description := goTrimSpace acc.description
    usage := acc.usage
    parameters := parseUsageParams acc.usage }

/-- `inspector.GetTaskDetails`, with the subprocess modelled by `runSummary`:
on a run error the error is returned, otherwise the parsed definition. -/
def GetTaskDetails (runSummary : Str → Except GoErr Str) (taskName : Str) :
    Except GoErr TaskDefinition :=
  match runSummary taskName with
  | Except.error e => Except.error e
  | Except.ok out => Except.ok (getTaskDetailsFromOutput taskName out)

def listItemPre : Str := "* ".data

/-- Pure core of `DiscoverTasks`: parse the captured stdout of
`task --list --taskfile <path>`; lines starting with `"* "` contribute
`TrimSpace(TrimPrefix(Split(line, ":")[0], "* "))`. -/
def discoverTasksFromOutput (stdout : Str) : List Str :=
  (splitOnChar '\n' stdout).foldl
    (fun ts line =>
      if goHasPre listItemPre line then
        ts ++ [goTrimSpace (goTrimPre listItemPre ((splitOnChar ':' line).headD []))]
      else ts)
    []

/-- `inspector.DiscoverTasks`, with the subprocess modelled by `runList`. -/
def DiscoverTasks (runList : Except GoErr Str) : Except GoErr (List Str) :=
  match runList with
  | Except.error e => Except.error e
  | Except.ok out => Except.ok (discoverTasksFromOutput out)

/-- The detail loop of `Inspect`: fetch details for each discovered name in
order, aborting with the first error. -/
def buildTasks (getDetails : Str → Except GoErr TaskDefinition) :
    List Str → Except GoErr (List TaskDefinition)
  | [] => Except.ok []
  | n :: ns =>
    match getDetails n with
    | Except.error e => Except.error e
    | Except.ok d =>
      match buildTasks getDetails ns with
      | Except.error e => Except.error e
      | Except.ok ds => Except.ok (d :: ds)

/-- `inspector.Inspect`, with discovery result and per-task detail fetch
passed explicitly. -/
def Inspect (discovered : Except GoErr (List Str))
    (getDetails : Str → Except GoErr TaskDefinition) : Except GoErr MCPConfig :=
  match discovered with
  | Except.error e => Except.error e
  | Except.ok names =>
    match buildTasks getDetails names with
    | Except.error e => Except.error e
    | Except.ok tasks => Except.ok { tasks := tasks }

end inspector

namespace server

open inspector

/-- A parameter entry of an `mcp.Tool` input schema, as produced by
`mcp.WithString(name, mcp.Required())`. -/
structure ToolParamSpec where
  name : Str
  paramType : Str
  required : Bool
deriving DecidableEq, Repr

/-- The observable part of an `mcp.Tool`. -/
structure McpTool where
  name : Str
  description : Str
  params : List ToolParamSpec
deriving DecidableEq, Repr

/-- `mcp.ToolOption`: a tool transformer applied by `mcp.NewTool`. -/
def ToolOption := McpTool → McpTool

/-- `mcp.WithDescription`. -/
def WithDescription (d : Str) : ToolOption :=
  fun t => { t with description := d }

/-- `mcp.WithString(name, mcp.Required())`: adds a mandatory string-typed
parameter. -/
def WithStringRequired (n : Str) : ToolOption :=
  fun t => { t with params := t.params ++ [{ name := n, paramType := "string".data, required := true }] }

/-- `mcp.NewTool`: start from an empty tool with the given name and apply
the options in order. -/
def NewTool (name : Str) (opts : List ToolOption) : McpTool :=
  opts.foldl (fun t o => o t) { name := name, description := [], params := [] }

/-- `server.TranslateTtmcpTools`. -/
def TranslateTtmcpTools (config : MCPConfig) : List McpTool :=
  config.tasks.foldl
    (fun tools task =>
      let opts :=
        task.parameters.foldl (fun os p => os ++ [WithStringRequired p.name])
          [WithDescription task.description]
      tools ++ [NewTool task.name opts])
    []

/-- The outcome of one `cmd.Run` with captured stdout and stderr;
`runError = some msg` models a non-nil error from `Run`
(in particular a non-zero exit). -/
structure ExecOutcome where
  runError : Option GoErr
  stdout : Str
  stderr : Str

/-- The observable part of an `mcp.CallToolResult`. -/
structure CallToolResult where
  isError : Bool
  content : Str
deriving DecidableEq, Repr

/-- `mcp.NewToolResultText`. -/
def NewToolResultText (s : Str) : CallToolResult :=
  { isError := false, content := s }

/-- `mcp.NewToolResultError`. -/
def NewToolResultError (s : Str) : CallToolResult :=
  { isError := true, content := s }

/-- The `args` slice built by the handler of `createTaskHandler`:
`--taskfile <path> <tool name>` followed by one `key=value` token per
argument, in the iteration order of the argument map (modelled as an
association list). -/
def handlerArgs (taskfilePath toolName : Str) (argPairs : List (Str × Str)) : List Str :=
  argPairs.foldl (fun as kv => as ++ [kv.1 ++ '=' :: kv.2])
    ["--taskfile".data, taskfilePath, toolName]

/-- The full argv of `exec.Command("task", args...)` in the handler. -/
def handlerArgv (taskfilePath toolName : Str) (argPairs : List (Str × Str)) : List Str :=
  "task".data :: handlerArgs taskfilePath toolName argPairs

/-- The handler returned by `server.createTaskHandler`, with the subprocess
modelled by `run`; the second component is the Go `error` return value. -/
def createTaskHandler (run : List Str → ExecOutcome) (taskfilePath : Str)
    (toolName : Str) (argPairs : List (Str × Str)) : CallToolResult × Option GoErr :=
  let outcome := run (handlerArgv taskfilePath toolName argPairs)
  match outcome.runError with
  | some _ => (NewToolResultError outcome.stderr, none)
  | none => (NewToolResultText outcome.stdout, none)

end server

namespace agent

open server

/-- The `taskCmdArgs` slice of `taskExecutorTool.Call`:
`-t <taskfile> <task name>`, then the whitespace fields of the free-text
input when it is non-empty. -/
def agentArgs (taskfilePath taskName : Str) (input : Str) : List Str :=
  let base := ["-t".data, taskfilePath, taskName]
  if input = [] then base else base ++ goFields input

/-- The full argv of `exec.CommandContext(ctx, "task", taskCmdArgs...)`. -/
def agentArgv (taskfilePath taskName : Str) (input : Str) : List Str :=
  "task".data :: agentArgs taskfilePath taskName input

/-- `taskExecutorTool.Call`, with the subprocess modelled by `run`; the
second component is the Go `error` return value, the first the returned
observation string. -/
def taskExecutorCall (run : List Str → ExecOutcome) (taskfilePath taskName input : Str) :
    Str × Option GoErr :=
  let o := run (agentArgv taskfilePath taskName input)
  let stdout := goTrimSpace o.stdout
  let stderr := goTrimSpace o.stderr
  match o.runError with
  | some e =>
    ("Error executing task ".data ++ taskName ++ ": ".data ++ e
       ++ ". Stderr: ".data ++ stderr ++ ". Stdout: ".data ++ stdout, none)
  | none =>
    if stderr = [] then (stdout, none)
    else ("Stdout:\n".data ++ stdout ++ "\nStderr:\n".data ++ stderr, none)

end agent

namespace inspector

/-- A line recognized by the usage branch of `GetTaskDetails`. -/
def isUsageLine (l : Str) : Bool :=
  goHasPre usageMarker l

/-- A line recognized by either marker branch of `GetTaskDetails`. -/
def isMarkerLine (l : Str) : Bool :=
  goHasPre usageMarker l || goHasPre requiredMarker l

/-- The trimmed remainder of a `Usage:` line, as recorded by the parser. -/
def extractUsage (l : Str) : Str :=
  goTrimSpace (goTrimPre usageMarker l)

/-- Stated from the spec: the text lines before the first recognized marker,
excluding lines beginning with the task-header prefix. -/
def descLines (ls : List Str) : List Str :=
  (ls.takeWhile (fun l => !isMarkerLine l)).filter (fun l => !goHasPre taskHeaderPre l)

/-- Stated from the spec: newline-joining a list of lines. -/
def joinNL : List Str → Str
  | [] => []
  | [l] => l
  | l :: ls => l ++ '\n' :: joinNL ls

/-- The description accumulator renders each kept line followed by a
newline. -/
def descRender : List Str → Str
  | [] => []
  | l :: ls => l ++ '\n' :: descRender ls

/-- Concrete detail fetcher used by witnesses: fails on task `B`. -/
def gdW : Str → Except GoErr TaskDefinition :=
  fun n => if n = "B".data then Except.error "boom".data else Except.ok { name := n }

end inspector

namespace server

/-- Concrete failing run used by witnesses. -/
def runFailW : List Str → ExecOutcome :=
  fun _ => { runError := some "exit status 1".data, stdout := "partial".data, stderr := "err text".data }

/-- Concrete succeeding run used by witnesses. -/
def runOkW : List Str → ExecOutcome :=
  fun _ => { runError := none, stdout := "ok text".data, stderr := [] }

/-- Concrete succeeding run with non-empty stderr, used by witnesses. -/
def runWarnW : List Str → ExecOutcome :=
  fun _ => { runError := none, stdout := " out ".data, stderr := " warn ".data }

end server

section ListLemmas

variable {α β : Type}

theorem foldl_snoc_map (f : α → β) (l : List α) (init : List β) :
    l.foldl (fun as x => as ++ [f x]) init = init ++ l.map f := by
  induction l generalizing init with
  | nil => simp
  | cons x xs ih => simp [ih]

theorem foldl_snoc_filter_map (p : α → Bool) (f : α → β) (l : List α) (init : List β) :
    l.foldl (fun as x => if p x then as ++ [f x] else as) init =
      init ++ (l.filter p).map f := by
  induction l generalizing init with
  | nil => simp
  | cons x xs ih =>
    by_cases h : p x <;> simp [List.filter_cons, h, ih]

end ListLemmas

namespace server

open inspector

/-- C6: for every tool name and argument map, the handler of
`createTaskHandler` builds the command line as the runner executable
`task`, the `--taskfile` flag with the configured path, the tool name, then
one `key=value` token per argument in the argument list's iteration order,
with values substituted verbatim as argv entries (no shell interpolation). -/
theorem c6_handler_command_line (taskfilePath toolName : Str) (argPairs : List (Str × Str)) :
    handlerArgv taskfilePath toolName argPairs =
      "task".data :: "--taskfile".data :: taskfilePath :: toolName ::
        argPairs.map (fun kv => kv.1 ++ '=' :: kv.2) := by
  unfold handlerArgv handlerArgs
  rw [foldl_snoc_map (fun kv : Str × Str => kv.1 ++ '=' :: kv.2)]
  rfl

/-- C3: the MCP tool handler never returns a non-nil error to its caller;
when the runner command run fails (in particular exits non-zero) it returns
an error-text result whose text is the captured stderr, and on success it
returns a success-text result whose text is the captured stdout. -/
theorem c3_handler_result (run : List Str → ExecOutcome)
    (taskfilePath toolName : Str) (argPairs : List (Str × Str)) :
    (createTaskHandler run taskfilePath toolName argPairs).2 = none
    ∧ (∀ e, (run (handlerArgv taskfilePath toolName argPairs)).runError = some e →
        (createTaskHandler run taskfilePath toolName argPairs).1 =
          NewToolResultError (run (handlerArgv taskfilePath toolName argPairs)).stderr)
    ∧ ((run (handlerArgv taskfilePath toolName argPairs)).runError = none →
        (createTaskHandler run taskfilePath toolName argPairs).1 =
          NewToolResultText (run (handlerArgv taskfilePath toolName argPairs)).stdout) := by
  refine ⟨?_, fun e he => ?_, fun hn => ?_⟩ <;>
    cases h : (run (handlerArgv taskfilePath toolName argPairs)).runError <;>
    simp_all [createTaskHandler]

/-- Closed witness for C3 at a failing and at a succeeding runner outcome. -/
theorem c3_handler_result_witness :
    (createTaskHandler runFailW "tf".data "build".data []).1 = NewToolResultError "err text".data
    ∧ (createTaskHandler runFailW "tf".data "build".data []).2 = none
    ∧ (createTaskHandler runOkW "tf".data "build".data []).1 = NewToolResultText "ok text".data :=
  ⟨(c3_handler_result runFailW "tf".data "build".data []).2.1 "exit status 1".data rfl,
   (c3_handler_result runFailW "tf".data "build".data []).1,
   (c3_handler_result runOkW "tf".data "build".data []).2.2 rfl⟩

end server

namespace agent

open server

/-- C8: the agent-side executor splits the free-text input into
whitespace-delimited tokens (the expected `key=value` pairs) and appends
them to the runner execute command after the runner executable, the `-t`
taskfile flag with its path, and the task name. -/
theorem c8_agent_args_fields (taskfilePath taskName input : Str) :
    agentArgv taskfilePath taskName input =
      "task".data :: "-t".data :: taskfilePath :: taskName :: goFields input := by
  unfold agentArgv agentArgs
  by_cases h : input = []
  · subst h; rfl
  · simp [h]

/-- C10: `taskExecutorTool.Call` always returns a nil error; on a failed
run it returns a formatted message embedding both the captured stderr and
stdout; on success with non-empty (trimmed) stderr it returns a combined
text containing both streams; on clean success it returns stdout; in every
case the streams are trimmed of leading and trailing whitespace. -/
theorem c10_agent_call_result (run : List Str → ExecOutcome)
    (taskfilePath taskName input : Str) :
    (taskExecutorCall run taskfilePath taskName input).2 = none
    ∧ (∀ e, (run (agentArgv taskfilePath taskName input)).runError = some e →
        (taskExecutorCall run taskfilePath taskName input).1 =
          "Error executing task ".data ++ taskName ++ ": ".data ++ e
            ++ ". Stderr: ".data
            ++ goTrimSpace (run (agentArgv taskfilePath taskName input)).stderr
            ++ ". Stdout: ".data
            ++ goTrimSpace (run (agentArgv taskfilePath taskName input)).stdout)
    ∧ ((run (agentArgv taskfilePath taskName input)).runError = none →
        goTrimSpace (run (agentArgv taskfilePath taskName input)).stderr ≠ [] →
        (taskExecutorCall run taskfilePath taskName input).1 =
          "Stdout:\n".data
            ++ goTrimSpace (run (agentArgv taskfilePath taskName input)).stdout
            ++ "\nStderr:\n".data
            ++ goTrimSpace (run (agentArgv taskfilePath taskName input)).stderr)
    ∧ ((run (agentArgv taskfilePath taskName input)).runError = none →
        goTrimSpace (run (agentArgv taskfilePath taskName input)).stderr = [] →
        (taskExecutorCall run taskfilePath taskName input).1 =
          goTrimSpace (run (agentArgv taskfilePath taskName input)).stdout) := by
  refine ⟨?_, fun e he => ?_, fun hn hs => ?_, fun hn hs => ?_⟩ <;>
    cases h : (run (agentArgv taskfilePath taskName input)).runError <;>
    simp_all [taskExecutorCall]
  split <;> rfl

/-- Closed witness for C10 at a failing run, a clean run and a run with
non-empty stderr. -/
theorem c10_agent_call_result_witness :
    (taskExecutorCall runFailW "tf".data "b".data []).1 =
      "Error executing task b: exit status 1. Stderr: err text. Stdout: partial".data
    ∧ (taskExecutorCall runFailW "tf".data "b".data []).2 = none
    ∧ (taskExecutorCall runOkW "tf".data "b".data []).1 = "ok text".data
    ∧ (taskExecutorCall runWarnW "tf".data "b".data []).1 = "Stdout:\nout\nStderr:\nwarn".data :=
  ⟨(c10_agent_call_result runFailW "tf".data "b".data []).2.1 "exit status 1".data rfl,
   (c10_agent_call_result runFailW "tf".data "b".data []).1,
   (c10_agent_call_result runOkW "tf".data "b".data []).2.2.2 rfl rfl,
   (c10_agent_call_result runWarnW "tf".data "b".data []).2.2.1 rfl (by decide)⟩

end agent

namespace server

open inspector

theorem withStringRequired_foldl (ps : List TaskParameter) (t : McpTool) :
    (ps.map (fun p => WithStringRequired p.name)).foldl (fun t o => o t) t =
      { t with params := t.params ++ ps.map (fun p =>
          ({ name := p.name, paramType := "string".data, required := true } : ToolParamSpec)) } := by
  induction ps generalizing t with
  | nil => simp
  | cons p ps ih =>
    simp only [List.map_cons, List.foldl_cons]
    rw [ih]
    simp [WithStringRequired]

theorem newTool_of_task (task : TaskDefinition) :
    NewTool task.name
        (task.parameters.foldl (fun os p => os ++ [WithStringRequired p.name])
          [WithDescription task.description]) =
      { name := task.name
        description := task.description
        params := task.parameters.map (fun p =>
          ({ name := p.name, paramType := "string".data, required := true } : ToolParamSpec)) } := by
  unfold NewTool
  rw [foldl_snoc_map (fun p : TaskParameter => WithStringRequired p.name)]
  simp only [List.singleton_append, List.foldl_cons]
  rw [withStringRequired_foldl]
  simp [WithDescription]

theorem translate_foldl (tasks : List TaskDefinition) (acc : List McpTool) :
    tasks.foldl
        (fun tools task =>
          tools ++ [NewTool task.name
            (task.parameters.foldl (fun os p => os ++ [WithStringRequired p.name])
              [WithDescription task.description])]) acc =
      acc ++ tasks.map (fun task =>
        { name := task.name
          description := task.description
          params := task.parameters.map (fun p =>
            ({ name := p.name, paramType := "string".data, required := true } : ToolParamSpec)) }) := by
  rw [foldl_snoc_map]
  simp only [newTool_of_task]

/-- C5: `TranslateTtmcpTools` produces exactly one descriptor per
`TaskDefinition`, in catalog order, whose name is the task name, whose
description is the task description, and whose parameter list contains
every `TaskParameter` name as a required string-typed option, regardless of
the parameter's own required flag. -/
theorem c5_translate_shape (config : MCPConfig) :
    TranslateTtmcpTools config =
      config.tasks.map (fun task =>
        { name := task.name
          description := task.description
          params := task.parameters.map (fun p =>
            ({ name := p.name, paramType := "string".data, required := true } : ToolParamSpec)) }) := by
  unfold TranslateTtmcpTools
  simp [translate_foldl]

end server

namespace inspector

theorem buildTasks_ok (gd : Str → Except GoErr TaskDefinition)
    (f : Str → TaskDefinition) :
    ∀ names : List Str, (∀ n ∈ names, gd n = Except.ok (f n)) →
      buildTasks gd names = Except.ok (names.map f) := by
  intro names
  induction names with
  | nil => intro; rfl
  | cons n ns ih =>
    intro h
    have hn := h n (by simp)
    have hns := ih fun m hm => h m (by simp [hm])
    simp [buildTasks, hn, hns]

theorem buildTasks_error (gd : Str → Except GoErr TaskDefinition)
    (e : GoErr) (n : Str) (hn : gd n = Except.error e) :
    ∀ pre post : List Str, (∀ m ∈ pre, ∃ d, gd m = Except.ok d) →
      buildTasks gd (pre ++ n :: post) = Except.error e := by
  intro pre
  induction pre with
  | nil => intro post _; simp [buildTasks, hn]
  | cons m ms ih =>
    intro post h
    obtain ⟨d, hd⟩ := h m (by simp)
    have h2 := ih post fun x hx => h x (List.mem_cons_of_mem _ hx)
    simp [buildTasks, hd, h2]

/-- C2: the catalog build is all-or-nothing: for every discovered name
list, if the detail fetch fails for one task (all earlier fetches
succeeding), `Inspect` returns that task's error and no catalog; when every
fetch succeeds, the catalog holds one `TaskDefinition` per discovered name,
in discovery order. -/
theorem c2_inspect_all_or_nothing (gd : Str → Except GoErr TaskDefinition) :
    (∀ (pre post : List Str) (n : Str) (e : GoErr),
        (∀ m ∈ pre, ∃ d, gd m = Except.ok d) → gd n = Except.error e →
        Inspect (Except.ok (pre ++ n :: post)) gd = Except.error e)
    ∧ (∀ (names : List Str) (f : Str → TaskDefinition),
        (∀ n ∈ names, gd n = Except.ok (f n)) →
        Inspect (Except.ok names) gd = Except.ok { tasks := names.map f }) := by
  constructor
  · intro pre post n e hpre hn
    simp [Inspect, buildTasks_error gd e n hn pre post hpre]
  · intro names f h
    simp [Inspect, buildTasks_ok gd f names h]

/-- Closed witness for C2: with detail fetch failing on task `B`, the
catalog build over `[A, B, C]` fails with `B`'s error, and over `[A]` it
returns the one-task catalog. -/
theorem c2_inspect_all_or_nothing_witness :
    Inspect (Except.ok ["A".data, "B".data, "C".data]) gdW = Except.error "boom".data
    ∧ Inspect (Except.ok ["A".data]) gdW = Except.ok { tasks := [{ name := "A".data }] } :=
  ⟨(c2_inspect_all_or_nothing gdW).1 ["A".data] ["C".data] "B".data "boom".data
      (fun m hm => ⟨{ name := m }, by
        have : m = "A".data := by simpa using hm
        subst this; rfl⟩) rfl,
   (c2_inspect_all_or_nothing gdW).2 ["A".data] (fun n => { name := n })
      (fun n hn => by
        have : n = "A".data := by simpa using hn
        subst this; rfl)⟩

/-- C7: when discovery reports zero tasks, discovery returns successfully
with an empty name list and the catalog build returns an empty catalog, not
an error. -/
theorem c7_zero_tasks_empty_catalog (gd : Str → Except GoErr TaskDefinition)
    (out : Str) (h : discoverTasksFromOutput out = []) :
    DiscoverTasks (Except.ok out) = Except.ok []
    ∧ Inspect (DiscoverTasks (Except.ok out)) gd = Except.ok { tasks := [] } := by
  have h1 : DiscoverTasks (Except.ok out) = Except.ok [] := by
    simp [DiscoverTasks, h]
  exact ⟨h1, by rw [h1]; rfl⟩

/-- Closed witness for C7 on list output mentioning no task lines. -/
theorem c7_zero_tasks_empty_catalog_witness :
    discoverTasksFromOutput "no tasks available\n".data = []
    ∧ Inspect (DiscoverTasks (Except.ok "no tasks available\n".data)) gdW =
        Except.ok { tasks := [] } :=
  ⟨by decide, (c7_zero_tasks_empty_catalog gdW "no tasks available\n".data (by decide)).2⟩

theorem splitOnChar_ne_nil (sep : Char) (s : Str) : splitOnChar sep s ≠ [] := by
  cases s with
  | nil => simp [splitOnChar]
  | cons c cs =>
    simp only [splitOnChar]
    by_cases h : (c == sep) = true
    · simp [h]
    · simp only [h]
      cases splitOnChar sep cs <;> simp

theorem headD_splitOnChar (sep : Char) (s : Str) :
    (splitOnChar sep s).headD [] = s.takeWhile (fun c => c != sep) := by
  induction s with
  | nil => rfl
  | cons c cs ih =>
    simp only [splitOnChar, List.takeWhile_cons]
    cases h : (c == sep) with
    | true =>
      have : (c != sep) = false := by simp [bne, h]
      simp [h, this]
    | false =>
      have hbne : (c != sep) = true := by simp [bne, h]
      cases hr : splitOnChar sep cs with
      | nil => exact absurd hr (splitOnChar_ne_nil sep cs)
      | cons t ts =>
        rw [hr] at ih
        simp [h, hbne, ← ih]

theorem mem_of_mem_splitOnChar (sep : Char) :
    ∀ (s t : Str), t ∈ splitOnChar sep s → ∀ c ∈ t, c ∈ s := by
  intro s
  induction s with
  | nil =>
    intro t ht c hc
    simp [splitOnChar] at ht
    subst ht
    simp at hc
  | cons a as ih =>
    intro t ht c hc
    simp only [splitOnChar] at ht
    by_cases h : (a == sep) = true
    · rw [if_pos h] at ht
      rcases List.mem_cons.mp ht with h1 | h1
      · subst h1; simp at hc
      · exact List.mem_cons_of_mem a (ih t h1 c hc)
    · rw [if_neg h] at ht
      cases hr : splitOnChar sep as with
      | nil => exact absurd hr (splitOnChar_ne_nil sep as)
      | cons u us =>
        rw [hr] at ht
        rcases List.mem_cons.mp ht with h1 | h1
        · subst h1
          rcases List.mem_cons.mp hc with h2 | h2
          · subst h2; exact List.mem_cons_self c as
          · exact List.mem_cons_of_mem a (ih u (hr ▸ List.mem_cons_self u us) c h2)
        · exact List.mem_cons_of_mem a (ih t (hr ▸ List.mem_cons_of_mem u h1) c hc)

theorem goContains_split_false (sep c : Char) (s : Str) (h : goContains c s = false) :
    ∀ t ∈ splitOnChar sep s, goContains c t = false := by
  intro t ht
  by_contra hcon
  have hmem : c ∈ t := by
    have := eq_true_of_ne_false hcon
    simpa [goContains] using this
  have : c ∈ s := mem_of_mem_splitOnChar sep s t ht c hmem
  simp [goContains, this] at h

theorem parseUsageParams_eq (usage : Str) :
    parseUsageParams usage =
      ((splitOnChar ' ' usage).filter (fun part => goContains '=' part)).map
        (fun part => { name := part.takeWhile (fun c => c != '=') }) := by
  unfold parseUsageParams
  by_cases h : goContains '=' usage = true
  · rw [if_pos h]
    rw [foldl_snoc_filter_map (fun part => goContains '=' part)
      (fun part => ({ name := (splitOnChar '=' part).headD [] } : TaskParameter))]
    rw [List.nil_append]
    have hfg : (fun part : Str => ({ name := (splitOnChar '=' part).headD [] } : TaskParameter)) =
        fun part => { name := part.takeWhile (fun c => c != '=') } :=
      funext fun part => by rw [headD_splitOnChar]
    rw [hfg]
  · rw [if_neg h]
    have hf : goContains '=' usage = false := by simpa using h
    have hnil : (splitOnChar ' ' usage).filter (fun part => goContains '=' part) = [] :=
      List.filter_eq_nil_iff.mpr fun t ht => by
        simp [goContains_split_false ' ' '=' usage hf t ht]
    rw [hnil, List.map_nil]

theorem not_hasPre_of_first_ne (a b : Char) (p q : Str) (hab : a ≠ b) (l : Str)
    (h : goHasPre (a :: p) l = true) : goHasPre (b :: q) l = false := by
  cases l with
  | nil => exact absurd h (by simp [goHasPre, List.isPrefixOf])
  | cons c cs =>
    have h2 : ((a == c) && List.isPrefixOf p cs) = true := h
    have hac : a = c := by
      have h3 := h2
      simp at h3
      exact h3.1
    show ((b == c) && List.isPrefixOf q cs) = false
    subst hac
    simp [Ne.symm hab]

theorem notUsage_of_taskHeader (l : Str) (h : goHasPre taskHeaderPre l = true) :
    goHasPre usageMarker l = false := by
  rw [show usageMarker = 'U' :: "sage:".data from rfl]
  rw [show taskHeaderPre = 't' :: "ask: ".data from rfl] at h
  exact not_hasPre_of_first_ne 't' 'U' _ _ (by decide) l h

theorem notRequired_of_taskHeader (l : Str) (h : goHasPre taskHeaderPre l = true) :
    goHasPre requiredMarker l = false := by
  rw [show requiredMarker = 'R' :: "equired:".data from rfl]
  rw [show taskHeaderPre = 't' :: "ask: ".data from rfl] at h
  exact not_hasPre_of_first_ne 't' 'R' _ _ (by decide) l h

theorem notTaskHeader_of_usage (l : Str) (h : goHasPre usageMarker l = true) :
    goHasPre taskHeaderPre l = false := by
  rw [show taskHeaderPre = 't' :: "ask: ".data from rfl]
  rw [show usageMarker = 'U' :: "sage:".data from rfl] at h
  exact not_hasPre_of_first_ne 'U' 't' _ _ (by decide) l h

theorem notTaskHeader_of_required (l : Str) (h : goHasPre requiredMarker l = true) :
    goHasPre taskHeaderPre l = false := by
  rw [show taskHeaderPre = 't' :: "ask: ".data from rfl]
  rw [show requiredMarker = 'R' :: "equired:".data from rfl] at h
  exact not_hasPre_of_first_ne 'R' 't' _ _ (by decide) l h

theorem detailStep_usage_of_not (acc : DetailAcc) (l : Str)
    (h : goHasPre usageMarker l = false) : (detailStep acc l).usage = acc.usage := by
  unfold detailStep
  split_ifs <;> simp_all

theorem detailStep_nonDesc (acc : DetailAcc) (l : Str) (h : acc.state ≠ PState.descSt) :
    (detailStep acc l).description = acc.description
    ∧ (detailStep acc l).state ≠ PState.descSt := by
  unfold detailStep
  split_ifs <;> simp_all

theorem foldl_nonDesc (ls : List Str) :
    ∀ acc : DetailAcc, acc.state ≠ PState.descSt →
      (ls.foldl detailStep acc).description = acc.description := by
  induction ls with
  | nil => intro acc _; rfl
  | cons l ls ih =>
    intro acc h
    obtain ⟨hd, hs⟩ := detailStep_nonDesc acc l h
    rw [List.foldl_cons, ih _ hs, hd]

theorem foldl_usage (ls : List Str) :
    ∀ acc : DetailAcc,
      (ls.foldl detailStep acc).usage =
        match (ls.filter isUsageLine).getLast? with
        | none => acc.usage
        | some l => extractUsage l := by
  induction ls with
  | nil => intro acc; rfl
  | cons l ls ih =>
    intro acc
    rw [List.foldl_cons, ih]
    cases hu : isUsageLine l with
    | false =>
      have h1 : (detailStep acc l).usage = acc.usage :=
        detailStep_usage_of_not acc l (by simpa [isUsageLine] using hu)
      cases hg : (ls.filter isUsageLine).getLast? <;>
        simp [List.filter_cons, hu, hg, h1]
    | true =>
      have hul : goHasPre usageMarker l = true := by simpa [isUsageLine] using hu
      have hth : goHasPre taskHeaderPre l = false := notTaskHeader_of_usage l hul
      have hstep : (detailStep acc l).usage = extractUsage l := by
        unfold detailStep
        simp [hth, hul, extractUsage]
      cases hfl : ls.filter isUsageLine with
      | nil => simp [List.filter_cons, hu, hfl, hstep]
      | cons x xs =>
        have hrw : (l :: ls).filter isUsageLine = l :: x :: xs := by
          simp [List.filter_cons, hu, hfl]
        rw [hrw, List.getLast?_cons_cons]
        cases hg : (x :: xs).getLast? with
        | none => exact absurd hg (by simp [List.getLast?_eq_none_iff])
        | some y => simp [hg]

theorem foldl_desc (ls : List Str) :
    ∀ acc : DetailAcc, acc.state = PState.descSt →
      (ls.foldl detailStep acc).description = acc.description ++ descRender (descLines ls) := by
  induction ls with
  | nil => intro acc _; simp [descLines, descRender]
  | cons l ls ih =>
    intro acc h
    rw [List.foldl_cons]
    cases hm : isMarkerLine l with
    | true =>
      have hm2 : goHasPre usageMarker l = true ∨ goHasPre requiredMarker l = true := by
        simpa [isMarkerLine] using hm
      have hth : goHasPre taskHeaderPre l = false := by
        rcases hm2 with h2 | h2
        · exact notTaskHeader_of_usage l h2
        · exact notTaskHeader_of_required l h2
      have hnd : (detailStep acc l).description = acc.description
          ∧ (detailStep acc l).state ≠ PState.descSt := by
        cases hu : goHasPre usageMarker l with
        | true =>
          unfold detailStep
          simp [hth, hu]
        | false =>
          have hr : goHasPre requiredMarker l = true := by
            rcases hm2 with h2 | h2
            · exact absurd h2 (by simp [hu])
            · exact h2
          unfold detailStep
          simp [hth, hu, hr]
      rw [foldl_nonDesc ls _ hnd.2, hnd.1]
      have hdl : descLines (l :: ls) = [] := by
        simp [descLines, List.takeWhile_cons, hm]
      simp [hdl, descRender]
    | false =>
      cases hth : goHasPre taskHeaderPre l with
      | true =>
        have hstep : detailStep acc l = acc := by
          unfold detailStep
          simp [hth]
        rw [hstep, ih acc h]
        have hdl : descLines (l :: ls) = descLines ls := by
          simp [descLines, List.takeWhile_cons, hm, List.filter_cons, hth]
        rw [hdl]
      | false =>
        have hm2 : goHasPre usageMarker l = false ∧ goHasPre requiredMarker l = false := by
          simpa [isMarkerLine] using hm
        have hstep : detailStep acc l =
            { acc with description := acc.description ++ l ++ ['\n'] } := by
          unfold detailStep
          simp [hth, hm2.1, hm2.2, h]
        rw [hstep]
        rw [ih { acc with description := acc.description ++ l ++ ['\n'] } h]
        have hdl : descLines (l :: ls) = l :: descLines ls := by
          simp [descLines, List.takeWhile_cons, hm, List.filter_cons, hth]
        rw [hdl]
        simp [descRender]

theorem goTrimSpace_append_space (s : Str) (c : Char) (h : goIsSpace c = true) :
    goTrimSpace (s ++ [c]) = goTrimSpace s := by
  unfold goTrimSpace goTrimRightSp
  simp [List.reverse_append, List.dropWhile_cons, h]

theorem descRender_eq_joinNL (l : Str) (ls : List Str) :
    descRender (l :: ls) = joinNL (l :: ls) ++ ['\n'] := by
  induction ls generalizing l with
  | nil => rfl
  | cons m ms ih =>
    show l ++ '\n' :: descRender (m :: ms) = (l ++ '\n' :: joinNL (m :: ms)) ++ ['\n']
    rw [ih]
    simp

theorem goTrimSpace_descRender (ls : List Str) :
    goTrimSpace (descRender ls) = goTrimSpace (joinNL ls) := by
  cases ls with
  | nil => rfl
  | cons l ls => rw [descRender_eq_joinNL, goTrimSpace_append_space _ '\n' (by decide)]

/-- C1 (as stated, over whitespace-delimited tokens) is false: the usage
string `A=1<TAB>B=2` has two whitespace-delimited tokens containing `=`,
but the detail parser produces a single parameter, named `A`, because the
code splits the usage string on the space character only. -/
theorem c1_whitespace_tokens_counterexample :
    ((goFields (getTaskDetailsFromOutput "t".data "Usage: A=1\tB=2".data).usage).filter
        (fun part => goContains '=' part)).length = 2
    ∧ (getTaskDetailsFromOutput "t".data "Usage: A=1\tB=2".data).parameters =
        [{ name := "A".data }] := by
  constructor
  · decide
  · decide

/-- C1 (amended): for every summary output, the parameters are derived by
splitting the recorded usage string on the space character (not on general
whitespace); every space-delimited part containing `=` contributes exactly
one parameter, in first-occurrence order, named by the part's characters
before the first `=`, with no deduplication. -/
theorem c1_params_from_space_split_tokens (taskName out : Str) :
    (getTaskDetailsFromOutput taskName out).parameters =
      ((splitOnChar ' ' (getTaskDetailsFromOutput taskName out).usage).filter
          (fun part => goContains '=' part)).map
        (fun part => ({ name := part.takeWhile (fun c => c != '=') } : TaskParameter)) :=
  parseUsageParams_eq _

/-- C4: for every task summary whose lines contain no line beginning with
`Usage:`, the detail parser returns an empty usage string and zero
parameters, and the returned description equals all text lines before the
first recognized marker (excluding lines beginning with the task-header
`task: `), newline-joined and trimmed of leading and trailing
whitespace. -/
theorem c4_no_usage_line (taskName out : Str)
    (h : ∀ l ∈ splitOnChar '\n' out, isUsageLine l = false) :
    (getTaskDetailsFromOutput taskName out).usage = []
    ∧ (getTaskDetailsFromOutput taskName out).parameters = []
    ∧ (getTaskDetailsFromOutput taskName out).description =
        goTrimSpace (joinNL (descLines (splitOnChar '\n' out))) := by
  have hf : (splitOnChar '\n' out).filter isUsageLine = [] :=
    List.filter_eq_nil_iff.mpr fun l hl => by simp [h l hl]
  have hu : ((splitOnChar '\n' out).foldl detailStep
      { description := [], usage := [], state := PState.descSt }).usage = [] := by
    rw [foldl_usage, hf]
    rfl
  have hd := foldl_desc (splitOnChar '\n' out)
      { description := [], usage := [], state := PState.descSt } rfl
  refine ⟨hu, ?_, ?_⟩
  · show parseUsageParams ((splitOnChar '\n' out).foldl detailStep
      { description := [], usage := [], state := PState.descSt }).usage = []
    rw [hu]
    rfl
  · show goTrimSpace ((splitOnChar '\n' out).foldl detailStep
      { description := [], usage := [], state := PState.descSt }).description =
        goTrimSpace (joinNL (descLines (splitOnChar '\n' out)))
    rw [hd, List.nil_append]
    exact goTrimSpace_descRender _

/-- Closed witness for C4 on a summary with a task header, two description
lines and a `Required:` section but no `Usage:` line. -/
theorem c4_no_usage_line_witness :
    (∀ l ∈ splitOnChar '\n' "task: hdr\nFirst line\nSecond line\nRequired:\n  X\n".data,
        isUsageLine l = false)
    ∧ (getTaskDetailsFromOutput "t".data
          "task: hdr\nFirst line\nSecond line\nRequired:\n  X\n".data).usage = []
    ∧ (getTaskDetailsFromOutput "t".data
          "task: hdr\nFirst line\nSecond line\nRequired:\n  X\n".data).parameters = []
    ∧ (getTaskDetailsFromOutput "t".data
          "task: hdr\nFirst line\nSecond line\nRequired:\n  X\n".data).description =
        "First line\nSecond line".data := by
  have h : ∀ l ∈ splitOnChar '\n' "task: hdr\nFirst line\nSecond line\nRequired:\n  X\n".data,
      isUsageLine l = false := by decide
  obtain ⟨h1, h2, h3⟩ := c4_no_usage_line "t".data
    "task: hdr\nFirst line\nSecond line\nRequired:\n  X\n".data h
  exact ⟨h, h1, h2, by rw [h3]; decide⟩

/-- C9: when the summary contains more than one line beginning with
`Usage:`, the parser records the trimmed remainder of the last such line as
the usage string (later lines overwrite earlier ones), the parameters are
derived from that last usage string only, and the description still equals
only the text lines before the first recognized marker, trimmed
(description accumulation never resumes). -/
theorem c9_last_usage_wins (taskName out l : Str)
    (hl : ((splitOnChar '\n' out).filter isUsageLine).getLast? = some l)
    (_hmany : 1 < ((splitOnChar '\n' out).filter isUsageLine).length) :
    (getTaskDetailsFromOutput taskName out).usage =
        goTrimSpace (goTrimPre usageMarker l)
    ∧ (getTaskDetailsFromOutput taskName out).parameters =
        parseUsageParams (goTrimSpace (goTrimPre usageMarker l))
    ∧ (getTaskDetailsFromOutput taskName out).description =
        goTrimSpace (joinNL (descLines (splitOnChar '\n' out))) := by
  have hu : ((splitOnChar '\n' out).foldl detailStep
      { description := [], usage := [], state := PState.descSt }).usage =
        goTrimSpace (goTrimPre usageMarker l) := by
    rw [foldl_usage, hl]
    rfl
  have hd := foldl_desc (splitOnChar '\n' out)
      { description := [], usage := [], state := PState.descSt } rfl
  refine ⟨hu, ?_, ?_⟩
  · show parseUsageParams ((splitOnChar '\n' out).foldl detailStep
      { description := [], usage := [], state := PState.descSt }).usage =
        parseUsageParams (goTrimSpace (goTrimPre usageMarker l))
    rw [hu]
  · show goTrimSpace ((splitOnChar '\n' out).foldl detailStep
      { description := [], usage := [], state := PState.descSt }).description =
        goTrimSpace (joinNL (descLines (splitOnChar '\n' out)))
    rw [hd, List.nil_append]
    exact goTrimSpace_descRender _

/-- Closed witness for C9 on a summary with two `Usage:` lines: the second
one wins, its parameters are used, and the description stops at the first
marker. -/
theorem c9_last_usage_wins_witness :
    ((splitOnChar '\n' "Desc\nUsage: A=1\nUsage: B=2 C=3\n".data).filter
        isUsageLine).getLast? = some "Usage: B=2 C=3".data
    ∧ 1 < ((splitOnChar '\n' "Desc\nUsage: A=1\nUsage: B=2 C=3\n".data).filter
        isUsageLine).length
    ∧ (getTaskDetailsFromOutput "t".data "Desc\nUsage: A=1\nUsage: B=2 C=3\n".data).usage =
        "B=2 C=3".data
    ∧ (getTaskDetailsFromOutput "t".data "Desc\nUsage: A=1\nUsage: B=2 C=3\n".data).parameters =
        [{ name := "B".data }, { name := "C".data }]
    ∧ (getTaskDetailsFromOutput "t".data "Desc\nUsage: A=1\nUsage: B=2 C=3\n".data).description =
        "Desc".data := by
  obtain ⟨h1, h2, h3⟩ := c9_last_usage_wins "t".data
    "Desc\nUsage: A=1\nUsage: B=2 C=3\n".data "Usage: B=2 C=3".data (by decide) (by decide)
  refine ⟨by decide, by decide, ?_, ?_, ?_⟩
  · rw [h1]; decide
  · rw [h2]; decide
  · rw [h3]; decide

end inspector
